import Mathlib

/-
Verification development for the rdownloader repository.

The Rust sources are shallowly embedded below:
- crates/rdownloader-utils/src/lib.rs : create_chunks, parse_content_range
- crates/rdownloader-dispatcher/src/lib.rs : the probe loop and the mode
  selection of dispatch
- crates/rdownloader-http/src/lib.rs : run_download (resume reconciliation,
  chunk tasks, termination and cleanup)

Machine integers (u64) are modelled as Nat; the one place where u64
arithmetic can wrap (the expression total_size - 1 in the single-chunk
branch of create_chunks, reached with total_size == 0) is modelled with an
explicit wrap-around subtraction mod 2^64.
-/

set_option maxRecDepth 8000

namespace RDownloader

/-! ## Chunk planner: create_chunks (rdownloader-utils/src/lib.rs, lines 15-36) -/

/-- Mirrors the Rust struct ChunkState {start, end, completed}.  The source
field named end is rendered end_ because end is a Lean keyword. -/
structure ChunkState where
  start : Nat
  end_ : Nat
  completed : Bool
deriving DecidableEq

def U64_MOD : Nat := 2 ^ 64

/-- Wrapping u64 subtraction of 1, as release-mode Rust computes
total_size - 1.  For 1 <= x < 2^64 this equals x - 1; for x = 0 it wraps to
2^64 - 1. -/
def u64sub1 (x : Nat) : Nat := (x + (U64_MOD - 1)) % U64_MOD

/-- The local constant chunk_size = 1 * 1024 * 1024 of create_chunks. -/
def CHUNK_SIZE : Nat := 1 * 1024 * 1024

/-- The while loop of create_chunks: starting from start, emit chunks of at
most CHUNK_SIZE bytes until start reaches total_size.  Inside the loop the
source computes total_size - 1 under the guard start < total_size, so the
u64 subtraction cannot wrap there and plain Nat subtraction is faithful. -/
def chunkLoop (total_size : Nat) (start : Nat) : List ChunkState :=
  if h : start < total_size then
    ⟨start, min (start + CHUNK_SIZE - 1) (total_size - 1), false⟩ ::
      chunkLoop total_size (min (start + CHUNK_SIZE - 1) (total_size - 1) + 1)
  else
    []
termination_by total_size - start
decreasing_by
  have hc : CHUNK_SIZE = 1048576 := rfl
  omega

/-- create_chunks from rdownloader-utils.  The single-chunk branch writes
end = total_size - 1 with u64 semantics (wraps at total_size = 0). -/
def create_chunks (total_size : Nat) (is_multipart : Bool) : List ChunkState :=
  if !is_multipart then
    [⟨0, u64sub1 total_size, false⟩]
  else
    chunkLoop total_size 0

theorem chunkLoop_unfold (t s : Nat) :
    chunkLoop t s =
      if s < t then
        ⟨s, min (s + CHUNK_SIZE - 1) (t - 1), false⟩ ::
          chunkLoop t (min (s + CHUNK_SIZE - 1) (t - 1) + 1)
      else [] := by
  rw [chunkLoop]
  split <;> rfl

theorem chunkLoop_neg {t s : Nat} (h : ¬ s < t) : chunkLoop t s = [] := by
  rw [chunkLoop_unfold, if_neg h]

theorem chunkLoop_pos {t s : Nat} (h : s < t) :
    chunkLoop t s =
      ⟨s, min (s + CHUNK_SIZE - 1) (t - 1), false⟩ ::
        chunkLoop t (min (s + CHUNK_SIZE - 1) (t - 1) + 1) := by
  rw [chunkLoop_unfold, if_pos h]

theorem u64sub1_of_pos {x : Nat} (h1 : 0 < x) (h2 : x < U64_MOD) :
    u64sub1 x = x - 1 := by
  unfold u64sub1
  have : x + (U64_MOD - 1) = (x - 1) + U64_MOD := by omega
  rw [this, Nat.add_mod_right]
  exact Nat.mod_eq_of_lt (by omega)

/-- Number of chunks of the multipart plan: ceil(total_size / CHUNK_SIZE),
written with the identity ceil(t/C) = (t-1)/C + 1 for t >= 1. -/
def numChunks (total_size : Nat) : Nat := (total_size + CHUNK_SIZE - 1) / CHUNK_SIZE

theorem CHUNK_SIZE_pos : 0 < CHUNK_SIZE := by norm_num [CHUNK_SIZE]

theorem numChunks_eq (t : Nat) (ht : 0 < t) :
    numChunks t = (t - 1) / CHUNK_SIZE + 1 := by
  unfold numChunks
  have h1 : t + CHUNK_SIZE - 1 = (t - 1) + CHUNK_SIZE := by
    have := CHUNK_SIZE_pos; omega
  rw [h1, Nat.add_div_right _ CHUNK_SIZE_pos]

theorem mul_lt_of_lt_numChunks {t i : Nat} (ht : 0 < t) (hi : i < numChunks t) :
    i * CHUNK_SIZE < t := by
  rw [numChunks_eq t ht] at hi
  have hi2 : i ≤ (t - 1) / CHUNK_SIZE := by omega
  have h3 : i * CHUNK_SIZE ≤ ((t - 1) / CHUNK_SIZE) * CHUNK_SIZE :=
    Nat.mul_le_mul_right _ hi2
  have h4 : ((t - 1) / CHUNK_SIZE) * CHUNK_SIZE ≤ t - 1 := Nat.div_mul_le_self _ _
  omega

theorem le_mul_numChunks (t : Nat) (ht : 0 < t) : t ≤ numChunks t * CHUNK_SIZE := by
  rw [numChunks_eq t ht]
  have hC := CHUNK_SIZE_pos
  have h1 : CHUNK_SIZE * ((t - 1) / CHUNK_SIZE) + (t - 1) % CHUNK_SIZE = t - 1 :=
    Nat.div_add_mod _ _
  have h2 : (t - 1) % CHUNK_SIZE < CHUNK_SIZE := Nat.mod_lt _ CHUNK_SIZE_pos
  have h3 : ((t - 1) / CHUNK_SIZE + 1) * CHUNK_SIZE
      = CHUNK_SIZE * ((t - 1) / CHUNK_SIZE) + CHUNK_SIZE := by ring
  omega

theorem numChunks_of_last {t k : Nat} (h1 : k * CHUNK_SIZE < t)
    (h2 : t ≤ (k + 1) * CHUNK_SIZE) : numChunks t = k + 1 := by
  unfold numChunks
  have hC := CHUNK_SIZE_pos
  have e2 : (k + 1) * CHUNK_SIZE = k * CHUNK_SIZE + CHUNK_SIZE := by ring
  apply Nat.div_eq_of_lt_le
  · omega
  · have e3 : (k + 1 + 1) * CHUNK_SIZE = k * CHUNK_SIZE + CHUNK_SIZE + CHUNK_SIZE := by
      ring
    omega

/-- Closed form of the planner loop: starting at a chunk boundary k * CHUNK_SIZE
below total_size, the loop emits exactly the chunks k, k+1, ..., numChunks - 1,
the j-th spanning [j*CHUNK_SIZE, min((j+1)*CHUNK_SIZE - 1, total_size - 1)]. -/
theorem chunkLoop_eq_map (t : Nat) (ht : 0 < t) :
    ∀ n k, numChunks t - k = n → k * CHUNK_SIZE < t →
      chunkLoop t (k * CHUNK_SIZE) =
        (List.range n).map (fun j =>
          ⟨(k + j) * CHUNK_SIZE,
           min ((k + j + 1) * CHUNK_SIZE - 1) (t - 1), false⟩) := by
  intro n
  induction n with
  | zero =>
    intro k hn hk
    exfalso
    have h1 := le_mul_numChunks t ht
    have h2 : numChunks t * CHUNK_SIZE ≤ k * CHUNK_SIZE :=
      Nat.mul_le_mul_right _ (by omega)
    omega
  | succ m ih =>
    intro k hn hk
    rw [chunkLoop_pos hk]
    have hC := CHUNK_SIZE_pos
    have harith : k * CHUNK_SIZE + CHUNK_SIZE - 1 = (k + 1) * CHUNK_SIZE - 1 := by
      have e2 : (k + 1) * CHUNK_SIZE = k * CHUNK_SIZE + CHUNK_SIZE := by ring
      omega
    by_cases hlast : t ≤ (k + 1) * CHUNK_SIZE
    · -- final chunk: the min picks total_size - 1 and the loop stops
      have hnum : numChunks t = k + 1 := numChunks_of_last hk hlast
      have hm : m = 0 := by omega
      subst hm
      have hmin : min (k * CHUNK_SIZE + CHUNK_SIZE - 1) (t - 1) = t - 1 := by
        rw [harith]; omega
      rw [hmin, chunkLoop_neg (by omega)]
      have hz : List.range 1 = [0] := rfl
      rw [hz, List.map_cons, List.map_nil]
      have h5 : min ((k + 0 + 1) * CHUNK_SIZE - 1) (t - 1) = t - 1 := by
        have e2 : (k + 0 + 1) * CHUNK_SIZE = (k + 1) * CHUNK_SIZE := by ring
        rw [e2]; omega
      rw [h5]
      have e6 : (k + 0) * CHUNK_SIZE = k * CHUNK_SIZE := by ring
      rw [e6]
    · -- interior chunk: the min picks (k+1)*CHUNK_SIZE - 1 and the loop recurses
      push_neg at hlast
      have hmin : min (k * CHUNK_SIZE + CHUNK_SIZE - 1) (t - 1) =
          (k + 1) * CHUNK_SIZE - 1 := by
        rw [harith]; omega
      rw [hmin]
      have hstep : (k + 1) * CHUNK_SIZE - 1 + 1 = (k + 1) * CHUNK_SIZE := by
        have : 0 < (k + 1) * CHUNK_SIZE := by positivity
        omega
      rw [hstep]
      have hnum : k + 1 < numChunks t := by
        have h2 : (k + 2) * CHUNK_SIZE ≤ t + CHUNK_SIZE - 1 := by
          have e2 : (k + 2) * CHUNK_SIZE = (k + 1) * CHUNK_SIZE + CHUNK_SIZE := by ring
          omega
        have h3 : k + 2 ≤ numChunks t := by
          unfold numChunks
          calc k + 2 = (k + 2) * CHUNK_SIZE / CHUNK_SIZE := by
                rw [Nat.mul_div_cancel _ CHUNK_SIZE_pos]
            _ ≤ (t + CHUNK_SIZE - 1) / CHUNK_SIZE := Nat.div_le_div_right h2
        omega
      rw [ih (k + 1) (by omega) hlast]
      rw [List.range_succ_eq_map]
      simp only [List.map_cons, List.map_map]
      rw [List.cons.injEq]
      constructor
      · rw [ChunkState.mk.injEq]
        have e1 : (k + 0) * CHUNK_SIZE = k * CHUNK_SIZE := by ring
        have e2 : (k + 0 + 1) * CHUNK_SIZE = (k + 1) * CHUNK_SIZE := by ring
        rw [e1, e2]
        refine ⟨rfl, by omega, rfl⟩
      · apply List.map_congr_left
        intro j _
        simp only [Function.comp_apply, Nat.succ_eq_add_one]
        have e3 : k + (j + 1) = k + 1 + j := by ring
        rw [e3]

/-! ## parse_content_range (rdownloader-utils/src/lib.rs, lines 39-43)

The source matches the regex  bytes \d+-\d+/(\d+)  anywhere in the input
(leftmost match) and parses capture group 1 with str::parse::<u64>.  The
regex engine is embedded for this concrete pattern: the literal, three
greedy digit runs and the two separators.  Since digits never equal the
separator characters, greedy matching needs no backtracking.  The \d class
is modelled as ASCII [0-9]; the inputs the program feeds this function are
HTTP header values, which reqwest only exposes when they are visible
ASCII. -/

/-- Greedy \d+ followed by the separator sep: consumes a non-empty maximal
digit run, requires the next char to be sep, and returns the rest.  Digits
never equal the separators of the pattern, so greediness needs no
backtracking. -/
def digitsThen (sep : Char) (l : List Char) : Option (List Char) :=
  if l.takeWhile Char.isDigit = [] then none
  else
    match l.dropWhile Char.isDigit with
    | c :: r => if c = sep then some r else none
    | [] => none

/-- One match attempt of the pattern at the head of the list; returns the
text of capture group 1 on success. -/
def matchAt : List Char → Option (List Char)
  | 'b' :: 'y' :: 't' :: 'e' :: 's' :: ' ' :: r1 =>
    match digitsThen '-' r1 with
    | some r3 =>
      match digitsThen '/' r3 with
      | some r5 =>
        if r5.takeWhile Char.isDigit = [] then none
        else some (r5.takeWhile Char.isDigit)
      | none => none
    | none => none
  | _ => none

/-- Leftmost match: try the pattern at every position, left to right. -/
def findMatch : List Char → Option (List Char)
  | [] => none
  | c :: rest =>
    match matchAt (c :: rest) with
    | some d => some d
    | none => findMatch rest

/-- Numeric value of a digit string (most significant digit first). -/
def digitsToNat (l : List Char) : Nat :=
  l.foldl (fun acc c => acc * 10 + (c.toNat - 48)) 0

/-- str::parse::<u64> on a char list: an optional leading plus sign, then
one or more ASCII digits, and the value must fit in u64. -/
def rustParseU64Chars (l : List Char) : Option Nat :=
  let l2 := if l.head? = some '+' then l.tail else l
  if l2 ≠ [] ∧ l2.all Char.isDigit then
    if digitsToNat l2 < U64_MOD then some (digitsToNat l2) else none
  else none

def rustParseU64 (s : String) : Option Nat :=
  rustParseU64Chars s.toList

/-- parse_content_range from rdownloader-utils: captures().and_then(parse). -/
def parse_content_range (range_str : String) : Option Nat :=
  (findMatch range_str.toList).bind rustParseU64Chars

/-- An input containing the pattern: some text p, then the literal
bytes followed by a space, digit run a, a dash, digit run b, a slash,
digit run n, then arbitrary trailing text t. -/
def patShape (p a b n t : List Char) : List Char :=
  p ++ ('b' :: 'y' :: 't' :: 'e' :: 's' :: ' ' ::
    (a ++ ('-' :: (b ++ ('/' :: (n ++ t))))))

/-- Spec-side reading of the pattern: the input decomposes around an
occurrence of  bytes <digits>-<digits>/<digits>  with all three digit runs
non-empty. -/
def HasPattern (l : List Char) : Prop :=
  ∃ p a b n t, l = patShape p a b n t ∧
    a ≠ [] ∧ b ≠ [] ∧ n ≠ [] ∧
    a.all Char.isDigit = true ∧ b.all Char.isDigit = true ∧
    n.all Char.isDigit = true

theorem takeWhile_all_append {p : Char → Bool} {a : List Char} (x : Char)
    (t : List Char) (ha : a.all p = true) (hx : p x = false) :
    (a ++ x :: t).takeWhile p = a ∧ (a ++ x :: t).dropWhile p = x :: t := by
  induction a with
  | nil => simp [List.takeWhile, List.dropWhile, hx]
  | cons c r ih =>
    simp only [List.all_cons, Bool.and_eq_true] at ha
    have := ih ha.2
    simp [List.takeWhile, List.dropWhile, ha.1, this.1, this.2]

theorem takeWhile_all_extend {p : Char → Bool} {n : List Char} (t : List Char)
    (hn : n.all p = true) : (n ++ t).takeWhile p = n ++ t.takeWhile p := by
  induction n with
  | nil => simp
  | cons c r ih =>
    simp only [List.all_cons, Bool.and_eq_true] at hn
    simp [List.takeWhile, hn.1, ih hn.2]

theorem digitsThen_sound {sep : Char} {l r : List Char}
    (h : digitsThen sep l = some r) :
    ∃ a, l = a ++ sep :: r ∧ a ≠ [] ∧ a.all Char.isDigit = true := by
  unfold digitsThen at h
  split at h
  · simp at h
  · rename_i hne
    cases hd : l.dropWhile Char.isDigit with
    | nil => rw [hd] at h; simp at h
    | cons c rest =>
      rw [hd] at h
      simp only [] at h
      by_cases hc : c = sep
      · rw [if_pos hc] at h
        injection h with hr
        subst hr; subst hc
        refine ⟨l.takeWhile Char.isDigit, ?_, hne, ?_⟩
        · rw [← hd]; exact (List.takeWhile_append_dropWhile _ _).symm
        · exact List.all_eq_true.mpr (fun x hx => List.mem_takeWhile_imp hx)
      · rw [if_neg hc] at h
        simp at h

theorem digitsThen_complete {sep : Char} {a : List Char} (t : List Char)
    (ha : a ≠ []) (hda : a.all Char.isDigit = true)
    (hsep : Char.isDigit sep = false) :
    digitsThen sep (a ++ sep :: t) = some t := by
  obtain ⟨e1, e2⟩ := takeWhile_all_append (p := Char.isDigit) sep t hda hsep
  unfold digitsThen
  rw [e1, if_neg ha, e2]
  simp

theorem matchAt_cons (r1 : List Char) :
    matchAt ('b' :: 'y' :: 't' :: 'e' :: 's' :: ' ' :: r1) =
      match digitsThen '-' r1 with
      | some r3 =>
        match digitsThen '/' r3 with
        | some r5 =>
          if r5.takeWhile Char.isDigit = [] then none
          else some (r5.takeWhile Char.isDigit)
        | none => none
      | none => none := rfl

theorem matchAt_sound {l : List Char} {d : List Char} (h : matchAt l = some d) :
    d ≠ [] ∧ d.all Char.isDigit = true ∧
    ∃ a b t, l = patShape [] a b d t ∧
      a ≠ [] ∧ b ≠ [] ∧ a.all Char.isDigit = true ∧ b.all Char.isDigit = true := by
  unfold matchAt at h
  split at h
  case _ r1 =>
    cases h1 : digitsThen '-' r1 with
    | none => rw [h1] at h; simp at h
    | some r3 =>
      rw [h1] at h
      simp only [] at h
      cases h2 : digitsThen '/' r3 with
      | none => rw [h2] at h; simp at h
      | some r5 =>
        rw [h2] at h
        simp only [] at h
        by_cases h3 : r5.takeWhile Char.isDigit = []
        · rw [if_pos h3] at h; simp at h
        · rw [if_neg h3] at h
          injection h with hd
          obtain ⟨a, he1, ha, hda⟩ := digitsThen_sound h1
          obtain ⟨b, he3, hb, hdb⟩ := digitsThen_sound h2
          have hr5 : r5 = d ++ r5.dropWhile Char.isDigit := by
            rw [← hd]; exact (List.takeWhile_append_dropWhile _ _).symm
          refine ⟨by rw [← hd]; exact h3, ?_,
            a, b, r5.dropWhile Char.isDigit, ?_, ha, hb, hda, hdb⟩
          · rw [← hd]
            exact List.all_eq_true.mpr (fun x hx => List.mem_takeWhile_imp hx)
          · simp only [patShape, List.nil_append]
            rw [he1, he3, ← hr5]
  case _ => simp at h

theorem matchAt_complete {a b n : List Char} (t : List Char)
    (ha : a ≠ []) (hb : b ≠ []) (hn : n ≠ [])
    (hda : a.all Char.isDigit = true) (hdb : b.all Char.isDigit = true)
    (hdn : n.all Char.isDigit = true) :
    matchAt (patShape [] a b n t) = some (n ++ t.takeWhile Char.isDigit) := by
  have h1 : digitsThen '-' (a ++ '-' :: (b ++ ('/' :: (n ++ t)))) =
      some (b ++ ('/' :: (n ++ t))) := digitsThen_complete _ ha hda (by decide)
  have h2 : digitsThen '/' (b ++ '/' :: (n ++ t)) = some (n ++ t) :=
    digitsThen_complete _ hb hdb (by decide)
  have h3 := takeWhile_all_extend (p := Char.isDigit) t hdn
  simp only [patShape, List.nil_append]
  rw [matchAt_cons, h1]
  simp only []
  rw [h2]
  simp only [h3]
  rw [if_neg (by simp [hn])]

theorem patShape_cons (c : Char) (p a b n t : List Char) :
    patShape (c :: p) a b n t = c :: patShape p a b n t := by
  simp [patShape]

theorem findMatch_sound {l d : List Char} (h : findMatch l = some d) :
    HasPattern l ∧ d ≠ [] ∧ d.all Char.isDigit = true := by
  induction l with
  | nil => simp [findMatch] at h
  | cons c rest ih =>
    rw [findMatch] at h
    cases hm : matchAt (c :: rest) with
    | some d0 =>
      rw [hm] at h
      simp only [] at h
      injection h with hd
      subst hd
      obtain ⟨hne, hdig, a, b, t, heq, ha, hb, hda, hdb⟩ := matchAt_sound hm
      exact ⟨⟨[], a, b, d0, t, heq, ha, hb, hne, hda, hdb, hdig⟩, hne, hdig⟩
    | none =>
      rw [hm] at h
      simp only [] at h
      obtain ⟨⟨p, a, b, n, t, heq, hprops⟩, hne, hdig⟩ := ih h
      exact ⟨⟨c :: p, a, b, n, t, by rw [patShape_cons, heq], hprops⟩, hne, hdig⟩

theorem findMatch_complete {l : List Char} (h : HasPattern l) :
    ∃ d, findMatch l = some d := by
  obtain ⟨p, a, b, n, t, heq, ha, hb, hn, hda, hdb, hdn⟩ := h
  subst heq
  induction p with
  | nil =>
    have hm := matchAt_complete t ha hb hn hda hdb hdn
    refine ⟨n ++ t.takeWhile Char.isDigit, ?_⟩
    have hshape : patShape [] a b n t
        = 'b' :: 'y' :: 't' :: 'e' :: 's' :: ' ' ::
            (a ++ ('-' :: (b ++ ('/' :: (n ++ t))))) := by simp [patShape]
    rw [hshape, findMatch, ← hshape, hm]
  | cons c p ih =>
    rw [patShape_cons, findMatch]
    cases hm : matchAt (c :: patShape p a b n t) with
    | some d0 => exact ⟨d0, rfl⟩
    | none => simpa using ih

theorem rustParseU64Chars_digits {d : List Char} (hne : d ≠ [])
    (hdig : d.all Char.isDigit = true) :
    rustParseU64Chars d =
      if digitsToNat d < U64_MOD then some (digitsToNat d) else none := by
  unfold rustParseU64Chars
  have hhead : d.head? ≠ some '+' := by
    cases d with
    | nil => simp
    | cons c r =>
      simp only [List.all_cons, Bool.and_eq_true] at hdig
      simp only [List.head?]
      intro hc
      cases hc
      exact absurd hdig.1 (by decide)
  rw [if_neg hhead, if_pos ⟨hne, hdig⟩]

/-! ## Dispatcher (rdownloader-dispatcher/src/lib.rs)

Header values are modelled as Option String (a missing header is none;
reqwest only exposes values that are visible ASCII, modelled as strings).
The probe response and chunk responses are supplied by an environment
function, standing for the network. -/

/-- The response headers the dispatcher reads. -/
structure Headers where
  content_range : Option String
  content_length : Option String
  accept_ranges : Option String
  etag : Option String
  content_type : Option String
deriving DecidableEq

def MIN_SIZE_FOR_MULTIPART : Nat := 1 * 1024 * 1024
def PROBE_MAX_RETRIES : Nat := 3
def PROBE_INITIAL_BACKOFF_SECS : Nat := 1

/-- Which executor dispatch hands the download to. -/
inductive Mode
  | multipart (size : Nat)
  | sequentialKnown (size : Nat)
  | streamFallback
deriving DecidableEq

/-- The size-determination and mode-selection logic of dispatch (lines
67-119 of the dispatcher source), applied to a successful probe response.
If Content-Range is present and parses, only the size decides; else if
Content-Length parses, Accept-Ranges must equal the literal bytes and the
size must exceed the threshold; else the unknown-size stream fallback. -/
def dispatchMode (h : Headers) : Mode :=
  match h.content_range.bind (fun s => parse_content_range s) with
  | some size =>
    if size > MIN_SIZE_FOR_MULTIPART then .multipart size
    else .sequentialKnown size
  | none =>
    match h.content_length.bind rustParseU64 with
    | some size =>
      if h.accept_ranges = some ("bytes") ∧ size > MIN_SIZE_FOR_MULTIPART then
        .multipart size
      else .sequentialKnown size
    | none => .streamFallback

/-- Mode selection as the claim words it, first match wins: a present and
parseable Content-Range decides by size alone; otherwise a parseable
Content-Length runs parallel iff Accept-Ranges equals the literal bytes
and the size exceeds 1 MiB; otherwise the stream fallback. -/
def claimMode (h : Headers) : Mode :=
  match h.content_range with
  | some s =>
    match parse_content_range s with
    | some n => if n > 1024 * 1024 then .multipart n else .sequentialKnown n
    | none => claimModeNoRange h
  | none => claimModeNoRange h
where
  claimModeNoRange (h : Headers) : Mode :=
    match h.content_length with
    | some s =>
      match rustParseU64 s with
      | some n =>
        if h.accept_ranges = some ("bytes") ∧ n > 1024 * 1024 then .multipart n
        else .sequentialKnown n
      | none => .streamFallback
    | none => .streamFallback

/-- What one probe attempt yields: a transport-level failure, or a response
with a status code and headers. -/
inductive ProbeAttempt
  | transportErr
  | response (status : Nat) (headers : Headers)

/-- How the probe loop ends. -/
inductive ProbeOutcome
  | success (h : Headers)
  | network
  | httpError (status : Nat)
  | downloadFailed
deriving DecidableEq

/-- probe_res.status().is_success() || probe_res.status() == 206 from the
source (is_success is the 2xx range). -/
def isProbeSuccess (st : Nat) : Bool :=
  (200 ≤ st && st < 300) || st == 206

/-- Backoff before the retry following attempt number attempt:
PROBE_INITIAL_BACKOFF_SECS * 2^(attempt - 1) seconds. -/
def backoffSecs (attempt : Nat) : Nat :=
  PROBE_INITIAL_BACKOFF_SECS * 2 ^ (attempt - 1)

/-- The probe retry loop of dispatch (lines 48-135): attempt counts 1, 2,
3.  The first argument is the number of attempts still allowed (the runs
of the for loop left), kept in lockstep with attempt: the loop is entered
with remaining = PROBE_MAX_RETRIES and attempt = 1.  Returns the outcome,
the number of the last attempt issued, and the list of sleeps performed
(in seconds, in order).  A transport error returns immediately; a success
returns immediately; a bad status records last_error and sleeps unless
this was the last attempt; on exhaustion the recorded error (or
DownloadFailed when none) is returned. -/
def probeLoop (f : Nat → ProbeAttempt) :
    Nat → Nat → Option Nat → ProbeOutcome × Nat × List Nat
  | 0, attempt, lastError =>
    (match lastError with
     | some st => .httpError st
     | none => .downloadFailed, attempt - 1, [])
  | remaining + 1, attempt, lastError =>
    match f attempt with
    | .transportErr => (.network, attempt, [])
    | .response st hd =>
      if isProbeSuccess st then (.success hd, attempt, [])
      else
        let rest := probeLoop f remaining (attempt + 1) (some st)
        (rest.1, rest.2.1,
          (if attempt < PROBE_MAX_RETRIES then [backoffSecs attempt] else [])
            ++ rest.2.2)

/-- The whole probe phase of dispatch, started at attempt 1 with no
recorded error and all PROBE_MAX_RETRIES attempts allowed. -/
def dispatchProbe (f : Nat → ProbeAttempt) : ProbeOutcome × Nat × List Nat :=
  probeLoop f PROBE_MAX_RETRIES 1 none

/-! ## Fetch executor: run_download (rdownloader-http/src/lib.rs, lines 112-256)

The filesystem is modelled by the two files run_download touches: the
sidecar (none when the file is absent, otherwise the parsed DownloadState
it holds) and the output file (none when absent, otherwise its length).
Each chunk task's network interaction is supplied by an environment
function from the chunk index to the response.  Chunk tasks run with
bounded concurrency in the source, each sidecar update inside one mutex
critical section; the model executes the scheduled tasks sequentially,
which realizes one interleaving of those atomic updates. -/

/-- Mirrors the Rust struct DownloadState {url, total_size, etag, chunks}. -/
structure DownloadState where
  url : String
  total_size : Nat
  etag : Option String
  chunks : List ChunkState
deriving DecidableEq

/-- The two files run_download touches. -/
structure Fs where
  sidecar : Option DownloadState
  output : Option Nat
deriving DecidableEq

/-- Mirrors the Rust enum DownloadError (payloads reduced to what the
claims need). -/
inductive DownloadErr
  | networkError
  | fileError
  | httpError (status : Nat)
  | spawnError
  | jsonError
  | stateError
  | chunkDownloadFailed
  | contentTypeMismatch
deriving DecidableEq

inductive RunOutcome
  | success
  | failure (e : DownloadErr)
deriving DecidableEq

/-- What the network returns for one chunk request: a transport failure or
a response with a status, an optional Content-Type and a body length. -/
inductive ChunkNet
  | transportErr
  | response (status : Nat) (contentType : Option String) (bodyLen : Nat)

/-- Sum of the lengths of the completed chunks, as computed by the warm
resume branch (lines 148-152). -/
def completedBytes (chunks : List ChunkState) : Nat :=
  chunks.foldl (fun acc c => if c.completed then acc + (c.end_ - c.start + 1) else acc) 0

/-- Resume reconciliation (lines 121-165): load the sidecar if present; on
any mismatch of total_size, url or etag delete the sidecar and the partial
output, re-plan and re-create the output pre-allocated to total_size; on a
match keep the record and count completed bytes; with no sidecar build a
fresh plan and create the output pre-allocated to total_size.  Returns the
filesystem after this phase, the in-memory state, and completed_bytes.
No sidecar write happens in this phase, mirroring the source. -/
def reconcile (fs : Fs) (url : String) (total_size : Nat)
    (current_etag : Option String) (is_multipart : Bool) :
    Fs × DownloadState × Nat :=
  match fs.sidecar with
  | some state =>
    if state.total_size ≠ total_size ∨ state.url ≠ url ∨ state.etag ≠ current_etag then
      ({ sidecar := none, output := some total_size },
       ⟨url, total_size, current_etag, create_chunks total_size is_multipart⟩, 0)
    else
      (fs, state, completedBytes state.chunks)
  | none =>
    ({ fs with output := some total_size },
     ⟨url, total_size, current_etag, create_chunks total_size is_multipart⟩, 0)

/-- The chunks scheduled for fetching: enumerate(), then filter on
!chunk.completed (line 174-175). -/
def pendingOf (state : DownloadState) : List (Nat × ChunkState) :=
  state.chunks.enum.filter (fun p => !p.2.completed)

/-- state_lock.chunks[i].completed = true (line 220). -/
def setCompleted : List ChunkState → Nat → List ChunkState
  | [], _ => []
  | c :: r, 0 => { c with completed := true } :: r
  | c :: r, i + 1 => c :: setCompleted r i

/-- One chunk task (lines 185-231): issue the ranged GET (the response is
net i), require status 206 or 200, compare the response Content-Type with
the expected one for exact optional equality, then open the output file,
write the body at the chunk offset, flip the completed flag and rewrite
the whole sidecar from the updated in-memory record. -/
def taskStep (net : Nat → ChunkNet) (expected_content_type : Option String)
    (i : Nat) (c : ChunkState) (mem : DownloadState) (fs : Fs) :
    Except DownloadErr (DownloadState × Fs) :=
  match net i with
  | .transportErr => .error .networkError
  | .response status chunk_content_type bodyLen =>
    if status ≠ 206 ∧ status ≠ 200 then .error (.httpError status)
    else if chunk_content_type ≠ expected_content_type then
      .error .contentTypeMismatch
    else
      match fs.output with
      | none => .error .fileError
      | some len =>
        let mem2 : DownloadState := { mem with chunks := setCompleted mem.chunks i }
        .ok (mem2, { sidecar := some mem2,
                     output := some (max len (c.start + bodyLen)) })

/-- Run the scheduled tasks in order, collecting whether any failed
(lines 238-245: results are gathered and any error sets has_error; a
failed task changes neither the files nor the record). -/
def runTasks (net : Nat → ChunkNet) (expected_content_type : Option String) :
    List (Nat × ChunkState) → DownloadState → Fs → Bool →
      DownloadState × Fs × Bool
  | [], mem, fs, has_error => (mem, fs, has_error)
  | (i, c) :: rest, mem, fs, has_error =>
    match taskStep net expected_content_type i c mem fs with
    | .ok (mem2, fs2) => runTasks net expected_content_type rest mem2 fs2 has_error
    | .error _ => runTasks net expected_content_type rest mem fs true

/-- run_download: reconciliation, schedule the pending chunks, gather
outcomes; if any task failed return ChunkDownloadFailed (leaving the files
as the tasks left them); only when no task failed remove the sidecar
(std::fs::remove_file errors if the sidecar was never created). -/
def run_download (fs0 : Fs) (net : Nat → ChunkNet) (url : String)
    (total_size : Nat) (current_etag : Option String)
    (expected_content_type : Option String) (is_multipart : Bool) :
    Fs × RunOutcome :=
  let r := reconcile fs0 url total_size current_etag is_multipart
  let res := runTasks net expected_content_type (pendingOf r.2.1) r.2.1 r.1 false
  if res.2.2 then (res.2.1, .failure .chunkDownloadFailed)
  else
    match res.2.1.sidecar with
    | some _ => ({ res.2.1 with sidecar := none }, .success)
    | none => (res.2.1, .failure .fileError)

/-- A task succeeds exactly when its response has status 206 or 200 and
the matching Content-Type, independent of the state it runs against
(provided the output file exists). -/
def taskOkB (net : Nat → ChunkNet) (expected_content_type : Option String)
    (i : Nat) : Bool :=
  match net i with
  | .transportErr => false
  | .response status chunk_content_type _ =>
    (status == 206 || status == 200) && (chunk_content_type == expected_content_type)

theorem taskStep_ok (net : Nat → ChunkNet) (ect : Option String)
    (i : Nat) (c : ChunkState) (mem : DownloadState) (fs : Fs) (len : Nat)
    (hout : fs.output = some len) (hok : taskOkB net ect i = true) :
    ∃ len2, taskStep net ect i c mem fs =
      .ok ({ mem with chunks := setCompleted mem.chunks i },
           { sidecar := some { mem with chunks := setCompleted mem.chunks i },
             output := some len2 }) := by
  unfold taskOkB at hok
  unfold taskStep
  cases hnet : net i with
  | transportErr => rw [hnet] at hok; simp at hok
  | response status ct bodyLen =>
    rw [hnet] at hok
    simp only [Bool.and_eq_true, Bool.or_eq_true, beq_iff_eq] at hok
    simp only []
    rw [if_neg (by omega), if_neg (by simp [hok.2]), hout]
    exact ⟨max len (c.start + bodyLen), rfl⟩

theorem taskStep_err (net : Nat → ChunkNet) (ect : Option String)
    (i : Nat) (c : ChunkState) (mem : DownloadState) (fs : Fs)
    (hbad : taskOkB net ect i = false) :
    ∃ e, taskStep net ect i c mem fs = .error e := by
  unfold taskOkB at hbad
  unfold taskStep
  cases hnet : net i with
  | transportErr => exact ⟨.networkError, rfl⟩
  | response status ct bodyLen =>
    rw [hnet] at hbad
    simp only [Bool.and_eq_false_iff, Bool.or_eq_false_iff,
      beq_eq_false_iff_ne] at hbad
    simp only []
    rcases hbad with ⟨h1, h2⟩ | hct
    · rw [if_pos ⟨h1, h2⟩]
      exact ⟨_, rfl⟩
    · by_cases hst : status ≠ 206 ∧ status ≠ 200
      · rw [if_pos hst]; exact ⟨_, rfl⟩
      · rw [if_neg hst, if_pos hct]; exact ⟨_, rfl⟩

theorem taskStep_ok_shape {net : Nat → ChunkNet} {ect : Option String}
    {i : Nat} {c : ChunkState} {mem : DownloadState} {fs : Fs}
    {m2 : DownloadState} {f2 : Fs}
    (h : taskStep net ect i c mem fs = .ok (m2, f2)) :
    f2.sidecar = some m2 ∧ ∃ len2, f2.output = some len2 := by
  unfold taskStep at h
  cases hnet : net i with
  | transportErr => rw [hnet] at h; simp at h
  | response status ct bodyLen =>
    rw [hnet] at h
    simp only [] at h
    by_cases h1 : status ≠ 206 ∧ status ≠ 200
    · rw [if_pos h1] at h; simp at h
    · rw [if_neg h1] at h
      by_cases h2 : ct ≠ ect
      · rw [if_pos h2] at h; simp at h
      · rw [if_neg h2] at h
        cases hout : fs.output with
        | none => rw [hout] at h; simp at h
        | some len =>
          rw [hout] at h
          simp only [] at h
          injection h with h
          injection h with hm hf
          subst hf
          exact ⟨by rw [hm], len.max (c.start + bodyLen), rfl⟩

theorem runTasks_cons (net : Nat → ChunkNet) (ect : Option String)
    (i : Nat) (c : ChunkState) (rest : List (Nat × ChunkState))
    (mem : DownloadState) (fs : Fs) (he : Bool) :
    runTasks net ect ((i, c) :: rest) mem fs he =
      match taskStep net ect i c mem fs with
      | .ok (mem2, fs2) => runTasks net ect rest mem2 fs2 he
      | .error _ => runTasks net ect rest mem fs true := rfl

theorem runTasks_he_true (net : Nat → ChunkNet) (ect : Option String) :
    ∀ (l : List (Nat × ChunkState)) mem fs,
      (runTasks net ect l mem fs true).2.2 = true := by
  intro l
  induction l with
  | nil => intro mem fs; rfl
  | cons p rest ih =>
    intro mem fs
    obtain ⟨i, c⟩ := p
    rw [runTasks_cons]
    cases h : taskStep net ect i c mem fs with
    | ok v =>
      obtain ⟨mem2, fs2⟩ := v
      simp only []
      exact ih mem2 fs2
    | error e =>
      simp only []
      exact ih mem fs

theorem runTasks_any_fail (net : Nat → ChunkNet) (ect : Option String) :
    ∀ (l : List (Nat × ChunkState)) mem fs he,
      (∃ p ∈ l, taskOkB net ect p.1 = false) →
      (runTasks net ect l mem fs he).2.2 = true := by
  intro l
  induction l with
  | nil =>
    intro mem fs he hex
    simp at hex
  | cons p rest ih =>
    intro mem fs he hex
    obtain ⟨i, c⟩ := p
    rw [runTasks_cons]
    cases h : taskStep net ect i c mem fs with
    | ok v =>
      obtain ⟨mem2, fs2⟩ := v
      simp only []
      obtain ⟨q, hq, hqf⟩ := hex
      rcases List.mem_cons.mp hq with hq1 | hq2
      · -- the failing task is the head, yet its step returned ok: impossible
        exfalso
        subst hq1
        obtain ⟨e, he2⟩ := taskStep_err net ect i c mem fs hqf
        rw [he2] at h
        exact absurd h (by simp)
      · exact ih mem2 fs2 he ⟨q, hq2, hqf⟩
    | error e =>
      simp only []
      exact runTasks_he_true net ect rest mem fs

theorem runTasks_all_fail (net : Nat → ChunkNet) (ect : Option String) :
    ∀ (l : List (Nat × ChunkState)) mem fs he,
      (∀ p ∈ l, taskOkB net ect p.1 = false) →
      runTasks net ect l mem fs he = (mem, fs, he || !l.isEmpty) := by
  intro l
  induction l with
  | nil =>
    intro mem fs he _
    simp [runTasks]
  | cons p rest ih =>
    intro mem fs he hall
    obtain ⟨i, c⟩ := p
    rw [runTasks_cons]
    obtain ⟨e, he2⟩ := taskStep_err net ect i c mem fs
      (hall (i, c) (List.mem_cons_self _ _))
    rw [he2]
    simp only []
    rw [ih mem fs true (fun q hq => hall q (List.mem_cons_of_mem _ hq))]
    simp

theorem runTasks_sidecar_some (net : Nat → ChunkNet) (ect : Option String) :
    ∀ (l : List (Nat × ChunkState)) mem fs he,
      fs.sidecar.isSome = true →
      ((runTasks net ect l mem fs he).2.1.sidecar.isSome = true) := by
  intro l
  induction l with
  | nil => intro mem fs he h; exact h
  | cons p rest ih =>
    intro mem fs he h
    obtain ⟨i, c⟩ := p
    rw [runTasks_cons]
    cases hstep : taskStep net ect i c mem fs with
    | ok v =>
      obtain ⟨mem2, fs2⟩ := v
      simp only []
      obtain ⟨hside, _⟩ := taskStep_ok_shape hstep
      exact ih mem2 fs2 he (by rw [hside]; rfl)
    | error e =>
      simp only []
      exact ih mem fs true h

theorem runTasks_some_ok (net : Nat → ChunkNet) (ect : Option String) :
    ∀ (l : List (Nat × ChunkState)) mem fs he len,
      fs.output = some len →
      (∃ p ∈ l, taskOkB net ect p.1 = true) →
      (runTasks net ect l mem fs he).2.1.sidecar.isSome = true := by
  intro l
  induction l with
  | nil =>
    intro mem fs he len hout hex
    simp at hex
  | cons p rest ih =>
    intro mem fs he len hout hex
    obtain ⟨i, c⟩ := p
    rw [runTasks_cons]
    by_cases hok : taskOkB net ect i = true
    · obtain ⟨len2, hstep⟩ := taskStep_ok net ect i c mem fs len hout hok
      rw [hstep]
      simp only []
      exact runTasks_sidecar_some net ect rest _ _ he rfl
    · obtain ⟨e, hstep⟩ := taskStep_err net ect i c mem fs
        (by revert hok; cases taskOkB net ect i <;> simp)
      rw [hstep]
      simp only []
      obtain ⟨q, hq, hqok⟩ := hex
      rcases List.mem_cons.mp hq with hq1 | hq2
      · subst hq1; exact absurd hqok hok
      · exact ih mem fs true len hout ⟨q, hq2, hqok⟩

theorem runTasks_all_ok (net : Nat → ChunkNet) (ect : Option String) :
    ∀ (l : List (Nat × ChunkState)) mem fs he len,
      fs.output = some len →
      (∀ p ∈ l, taskOkB net ect p.1 = true) →
      (runTasks net ect l mem fs he).2.2 = he := by
  intro l
  induction l with
  | nil => intro mem fs he len _ _; rfl
  | cons p rest ih =>
    intro mem fs he len hout hall
    obtain ⟨i, c⟩ := p
    rw [runTasks_cons]
    obtain ⟨len2, hstep⟩ := taskStep_ok net ect i c mem fs len hout
      (hall (i, c) (List.mem_cons_self _ _))
    rw [hstep]
    simp only []
    exact ih _ _ he len2 rfl (fun q hq => hall q (List.mem_cons_of_mem _ hq))

/-! ## Claim theorems -/

/-- Helper evaluation: the parallel plan for 2 MiB is two 1 MiB chunks. -/
theorem create_chunks_eval_2MiB :
    create_chunks (2 * 1024 * 1024) true =
      [⟨0, 1048575, false⟩, ⟨1048576, 2097151, false⟩] := by
  have e1 : chunkLoop 2097152 0 =
      ⟨0, 1048575, false⟩ :: chunkLoop 2097152 1048576 := by
    rw [chunkLoop_pos (by norm_num)]
    norm_num [CHUNK_SIZE]
  have e2 : chunkLoop 2097152 1048576 =
      ⟨1048576, 2097151, false⟩ :: chunkLoop 2097152 2097152 := by
    rw [chunkLoop_pos (by norm_num)]
    norm_num [CHUNK_SIZE]
  have e3 : chunkLoop 2097152 2097152 = [] := chunkLoop_neg (by norm_num)
  show chunkLoop 2097152 0 = _
  rw [e1, e2, e3]

/-- Helper: the parallel plan for a positive total has ceil(total/1MiB)
chunks. -/
theorem create_chunks_true_length (t : Nat) (ht : 0 < t) :
    (create_chunks t true).length = numChunks t := by
  show (chunkLoop t 0).length = _
  have h := chunkLoop_eq_map t ht (numChunks t) 0 (by omega) (by simpa using ht)
  simp only [Nat.zero_mul] at h
  rw [h, List.length_map, List.length_range]

/-- C1, counterexample.  The claim predicts that a 2 MiB parallel download
(below the claimed 10 MiB target chunk size) is planned as one single
chunk, and that no parallel plan ever exceeds 16 chunks.  The source uses
fixed 1 MiB chunks with no cap: 2 MiB yields two chunks and 20 MiB yields
20 > 16 chunks. -/
theorem C1_counterexample :
    create_chunks (2 * 1024 * 1024) true ≠ [⟨0, 2 * 1024 * 1024 - 1, false⟩] ∧
    16 < (create_chunks (20 * 1024 * 1024) true).length := by
  constructor
  · rw [create_chunks_eval_2MiB]
    decide
  · rw [create_chunks_true_length _ (by norm_num)]
    norm_num [numChunks, CHUNK_SIZE]

/-- C1 (amended): for every u64 total_size > 0, create_chunks with
parallel = true returns ceil(total_size / 1 MiB) chunks, the i-th spanning
[i * 1 MiB, min((i+1) * 1 MiB - 1, total_size - 1)], all pending — with no
upper bound on the number of chunks — and with parallel = false one chunk
[0, total_size - 1]. -/
theorem C1_amended_plan (total_size : Nat) (h1 : 0 < total_size)
    (h2 : total_size < U64_MOD) :
    create_chunks total_size true =
      (List.range (numChunks total_size)).map (fun i =>
        ⟨i * CHUNK_SIZE, min ((i + 1) * CHUNK_SIZE - 1) (total_size - 1), false⟩) ∧
    create_chunks total_size false = [⟨0, total_size - 1, false⟩] := by
  constructor
  · show chunkLoop total_size 0 = _
    have h := chunkLoop_eq_map total_size h1 (numChunks total_size) 0
      (by omega) (by simpa using h1)
    simp only [Nat.zero_mul] at h
    rw [h]
    apply List.map_congr_left
    intro j _
    simp
  · show [(⟨0, u64sub1 total_size, false⟩ : ChunkState)] = [⟨0, total_size - 1, false⟩]
    rw [u64sub1_of_pos h1 h2]

theorem C1_amended_plan_witness :
    create_chunks (2 * 1024 * 1024) true =
      (List.range (numChunks (2 * 1024 * 1024))).map (fun i =>
        ⟨i * CHUNK_SIZE, min ((i + 1) * CHUNK_SIZE - 1) (2 * 1024 * 1024 - 1),
         false⟩) ∧
    create_chunks (2 * 1024 * 1024) false = [⟨0, 2 * 1024 * 1024 - 1, false⟩] :=
  C1_amended_plan (2 * 1024 * 1024) (by norm_num) (by norm_num [U64_MOD])

/-- C8: for every u64 total_size > 0 and either parallel value, the plan
is non-empty, every chunk satisfies start <= end < total_size and is
pending, consecutive chunks are contiguous, distinct chunks do not
overlap, the first chunk starts at 0 and the last chunk ends at
total_size - 1. -/
theorem C8_plan_coverage (total_size : Nat) (par : Bool) (h1 : 0 < total_size)
    (h2 : total_size < U64_MOD) :
    create_chunks total_size par ≠ [] ∧
    (∀ c ∈ create_chunks total_size par,
      c.start ≤ c.end_ ∧ c.end_ < total_size ∧ c.completed = false) ∧
    (∀ i, (hi : i + 1 < (create_chunks total_size par).length) →
      (create_chunks total_size par)[i + 1].start =
        (create_chunks total_size par)[i].end_ + 1) ∧
    (∀ i j, (hi : i < (create_chunks total_size par).length) →
      (hj : j < (create_chunks total_size par).length) → i < j →
      (create_chunks total_size par)[i].end_ <
        (create_chunks total_size par)[j].start) ∧
    (∀ h0 : 0 < (create_chunks total_size par).length,
      (create_chunks total_size par)[0].start = 0) ∧
    (∀ hl : 0 < (create_chunks total_size par).length,
      (create_chunks total_size par)[(create_chunks total_size par).length - 1].end_
        = total_size - 1) := by
  have hC := CHUNK_SIZE_pos
  cases par with
  | false =>
    have he : create_chunks total_size false = [⟨0, total_size - 1, false⟩] := by
      show [(⟨0, u64sub1 total_size, false⟩ : ChunkState)] = [⟨0, total_size - 1, false⟩]
      rw [u64sub1_of_pos h1 h2]
    rw [he]
    refine ⟨by simp, ?_, ?_, ?_, ?_, ?_⟩
    · intro c hc
      simp at hc
      subst hc
      simp
      omega
    · intro i hi
      simp at hi
    · intro i j hi hj hij
      simp at hi hj
      omega
    · intro h0
      rfl
    · intro hl
      rfl
  | true =>
    have hmap := chunkLoop_eq_map total_size h1 (numChunks total_size) 0
      (by omega) (by simpa using h1)
    simp only [Nat.zero_mul] at hmap
    have he : create_chunks total_size true =
        (List.range (numChunks total_size)).map (fun j =>
          ⟨(0 + j) * CHUNK_SIZE,
           min ((0 + j + 1) * CHUNK_SIZE - 1) (total_size - 1), false⟩) := hmap
    have hlen : (create_chunks total_size true).length = numChunks total_size := by
      rw [he, List.length_map, List.length_range]
    have hN : 1 ≤ numChunks total_size := by
      rw [numChunks_eq total_size h1]
      exact Nat.le_add_left 1 _
    have hget : ∀ i, (hi : i < (create_chunks total_size true).length) →
        (create_chunks total_size true)[i] =
          ⟨i * CHUNK_SIZE, min ((i + 1) * CHUNK_SIZE - 1) (total_size - 1),
           false⟩ := by
      intro i hi
      rw [List.getElem_of_eq he hi, List.getElem_map, List.getElem_range]
      simp
    refine ⟨?_, ?_, ?_, ?_, ?_, ?_⟩
    · intro hnil
      rw [hnil] at hlen
      simp at hlen
      omega
    · intro c hc
      rw [he] at hc
      obtain ⟨j, hj, hcj⟩ := List.mem_map.mp hc
      have hjN : j < numChunks total_size := List.mem_range.mp hj
      subst hcj
      have hjt : j * CHUNK_SIZE < total_size := mul_lt_of_lt_numChunks h1 hjN
      have e2 : (0 + j) * CHUNK_SIZE = j * CHUNK_SIZE := by ring
      have e3 : (0 + j + 1) * CHUNK_SIZE = j * CHUNK_SIZE + CHUNK_SIZE := by ring
      refine ⟨?_, ?_, rfl⟩ <;> simp only [e2, e3] <;> omega
    · intro i hi
      have hi1 : i < (create_chunks total_size true).length := by omega
      rw [hget (i + 1) hi, hget i hi1]
      have hiN : i + 1 < numChunks total_size := by rw [← hlen]; exact hi
      have ht1 : (i + 1) * CHUNK_SIZE < total_size :=
        mul_lt_of_lt_numChunks h1 hiN
      have e3 : (i + 1) * CHUNK_SIZE = i * CHUNK_SIZE + CHUNK_SIZE := by ring
      simp only []
      omega
    · intro i j hi hj hij
      rw [hget i hi, hget j hj]
      have hjN : j < numChunks total_size := by rw [← hlen]; exact hj
      have hjt : j * CHUNK_SIZE < total_size := mul_lt_of_lt_numChunks h1 hjN
      have hmul : (i + 1) * CHUNK_SIZE ≤ j * CHUNK_SIZE :=
        Nat.mul_le_mul_right _ (by omega)
      have e3 : (i + 1) * CHUNK_SIZE = i * CHUNK_SIZE + CHUNK_SIZE := by ring
      simp only []
      omega
    · intro h0
      rw [hget 0 h0]
      simp
    · intro hl
      have hlast : (create_chunks total_size true).length - 1 <
          (create_chunks total_size true).length := by omega
      rw [hget _ hlast]
      simp only [hlen]
      have hle := le_mul_numChunks total_size h1
      have e3 : (numChunks total_size - 1 + 1) = numChunks total_size := by omega
      rw [e3]
      show min (numChunks total_size * CHUNK_SIZE - 1) (total_size - 1)
        = total_size - 1
      omega

theorem C8_plan_coverage_witness :
    create_chunks 5 false ≠ [] ∧
    (∀ c ∈ create_chunks 5 false,
      c.start ≤ c.end_ ∧ c.end_ < 5 ∧ c.completed = false) ∧
    (∀ i, (hi : i + 1 < (create_chunks 5 false).length) →
      (create_chunks 5 false)[i + 1].start = (create_chunks 5 false)[i].end_ + 1) ∧
    (∀ i j, (hi : i < (create_chunks 5 false).length) →
      (hj : j < (create_chunks 5 false).length) → i < j →
      (create_chunks 5 false)[i].end_ < (create_chunks 5 false)[j].start) ∧
    (∀ h0 : 0 < (create_chunks 5 false).length,
      (create_chunks 5 false)[0].start = 0) ∧
    (∀ hl : 0 < (create_chunks 5 false).length,
      (create_chunks 5 false)[(create_chunks 5 false).length - 1].end_ = 5 - 1) :=
  C8_plan_coverage 5 false (by norm_num) (by norm_num [U64_MOD])

/-- C9, counterexample.  For total_size = 0 with parallel = false the
planner returns neither of the two spec-sanctioned results: the u64
subtraction total_size - 1 wraps and the single chunk is
[0, 2^64 - 1], not completed. -/
theorem C9_counterexample :
    ¬ (create_chunks 0 false = [⟨0, 0, true⟩] ∨ create_chunks 0 false = []) := by
  decide

/-- C9 (amended): for total_size = 0 the parallel planner returns no
chunks (one of the sanctioned results), but the sequential single-chunk
branch wraps the u64 subtraction total_size - 1 and produces the single
pending chunk [0, 2^64 - 1], which is neither sanctioned result. -/
theorem C9_amended_zero :
    create_chunks 0 true = [] ∧
    create_chunks 0 false = [⟨0, U64_MOD - 1, false⟩] := by
  constructor
  · exact chunkLoop_neg (by omega)
  · decide

/-- C10, counterexample.  The input below contains the pattern
bytes <digits>-<digits>/<digits> (it is exactly of that shape), yet
parse_content_range returns none rather than Some of the digits after the
slash: the total 18446744073709551616 = 2^64 overflows u64, so the
str::parse::<u64> step of the source fails and the and_then chain yields
None. -/
theorem C10_counterexample :
    HasPattern (("bytes 0-0/18446744073709551616").toList) ∧
    parse_content_range ("bytes 0-0/18446744073709551616") = none := by
  constructor
  · refine ⟨[], ['0'], ['0'],
      ['1', '8', '4', '4', '6', '7', '4', '4', '0', '7', '3', '7', '0', '9',
       '5', '5', '1', '6', '1', '6'], [], ?_, ?_, ?_, ?_, ?_, ?_, ?_⟩
    · decide
    · decide
    · decide
    · decide
    · decide
    · decide
    · decide
  · decide

/-- C10 (amended): parse_content_range matches the pattern anywhere in the
input (ASCII inputs; header values are visible ASCII): an input contains a
substring bytes <digits>-<digits>/<digits> exactly when the regex finds a
match, the capture is the non-empty digit run after the slash of the
leftmost match, and the function returns Some of its value when that value
fits in u64 and None on overflow; inputs containing no such substring give
None.  No consistency between the a-b range and the total is checked (the
witness evaluates an input containing bytes 9-2/5 to Some 5). -/
theorem C10_amended_regex (s : String)
    (hascii : ∀ c ∈ s.toList, c.toNat < 128) :
    (HasPattern s.toList ↔ (findMatch s.toList).isSome = true) ∧
    (∀ d, findMatch s.toList = some d →
      d ≠ [] ∧ d.all Char.isDigit = true ∧
      parse_content_range s =
        (if digitsToNat d < U64_MOD then some (digitsToNat d) else none)) ∧
    ((¬ HasPattern s.toList) → parse_content_range s = none) := by
  refine ⟨⟨fun h => ?_, fun h => ?_⟩, fun d hd => ?_, fun h => ?_⟩
  · obtain ⟨d, hd⟩ := findMatch_complete h
    rw [hd]
    rfl
  · cases hf : findMatch s.toList with
    | none => rw [hf] at h; simp at h
    | some d => exact (findMatch_sound hf).1
  · obtain ⟨_, hne, hdig⟩ := findMatch_sound hd
    refine ⟨hne, hdig, ?_⟩
    unfold parse_content_range
    rw [hd]
    show rustParseU64Chars d = _
    exact rustParseU64Chars_digits hne hdig
  · cases hf : findMatch s.toList with
    | none =>
      unfold parse_content_range
      rw [hf]
      rfl
    | some d => exact absurd (findMatch_sound hf).1 h

theorem C10_amended_regex_witness :
    parse_content_range ("xx bytes 9-2/5 yy") = some 5 := by
  have h := (C10_amended_regex ("xx bytes 9-2/5 yy") (by decide)).2.1
    ['5'] (by decide)
  rw [h.2.2]
  decide

theorem claimModeNoRange_eq (h : Headers) :
    (match h.content_length.bind rustParseU64 with
     | some size =>
       if h.accept_ranges = some ("bytes") ∧ size > MIN_SIZE_FOR_MULTIPART then
         Mode.multipart size
       else Mode.sequentialKnown size
     | none => Mode.streamFallback) = claimMode.claimModeNoRange h := by
  unfold claimMode.claimModeNoRange
  cases hcl : h.content_length with
  | none => rfl
  | some s =>
    simp only [Option.some_bind]
    unfold rustParseU64
    cases hp : rustParseU64Chars s.toList with
    | none => rfl
    | some n => rfl

/-- C5: on a successful probe the dispatcher picks the mode with first
match wins: a present and parseable Content-Range selects parallel iff the
size exceeds 1 MiB, without consulting Accept-Ranges, else sequential with
the known size; otherwise a parseable Content-Length selects parallel iff
Accept-Ranges equals the literal bytes and the size exceeds 1 MiB, else
sequential with the known size; otherwise the stream fallback with the
size unknown.  dispatchMode is the embedding of the source, claimMode is
the claim restated word by word. -/
theorem C5_mode_selection (h : Headers) : dispatchMode h = claimMode h := by
  unfold dispatchMode claimMode
  cases hcr : h.content_range with
  | none =>
    simp only [Option.none_bind]
    exact claimModeNoRange_eq h
  | some s =>
    simp only [Option.some_bind]
    cases hp : parse_content_range s with
    | none =>
      simp only []
      exact claimModeNoRange_eq h
    | some n =>
      simp only []
      rfl

theorem probeLoop_zero (f : Nat → ProbeAttempt) (attempt : Nat)
    (lastError : Option Nat) :
    probeLoop f 0 attempt lastError =
      (match lastError with
       | some st => .httpError st
       | none => .downloadFailed, attempt - 1, []) := rfl

theorem probeLoop_succ (f : Nat → ProbeAttempt) (rem attempt : Nat)
    (lastError : Option Nat) :
    probeLoop f (rem + 1) attempt lastError =
      match f attempt with
      | .transportErr => (.network, attempt, [])
      | .response st hd =>
        if isProbeSuccess st then (.success hd, attempt, [])
        else
          ((probeLoop f rem (attempt + 1) (some st)).1,
           (probeLoop f rem (attempt + 1) (some st)).2.1,
           (if attempt < PROBE_MAX_RETRIES then [backoffSecs attempt] else [])
             ++ (probeLoop f rem (attempt + 1) (some st)).2.2) := rfl

theorem probeLoop_step3 (f : Nat → ProbeAttempt) (a : Nat) (last : Option Nat) :
    probeLoop f 3 a last =
      match f a with
      | .transportErr => (.network, a, [])
      | .response st hd =>
        if isProbeSuccess st then (.success hd, a, [])
        else
          ((probeLoop f 2 (a + 1) (some st)).1,
           (probeLoop f 2 (a + 1) (some st)).2.1,
           (if a < PROBE_MAX_RETRIES then [backoffSecs a] else [])
             ++ (probeLoop f 2 (a + 1) (some st)).2.2) := probeLoop_succ f 2 a last

theorem probeLoop_step2 (f : Nat → ProbeAttempt) (a : Nat) (last : Option Nat) :
    probeLoop f 2 a last =
      match f a with
      | .transportErr => (.network, a, [])
      | .response st hd =>
        if isProbeSuccess st then (.success hd, a, [])
        else
          ((probeLoop f 1 (a + 1) (some st)).1,
           (probeLoop f 1 (a + 1) (some st)).2.1,
           (if a < PROBE_MAX_RETRIES then [backoffSecs a] else [])
             ++ (probeLoop f 1 (a + 1) (some st)).2.2) := probeLoop_succ f 1 a last

theorem probeLoop_step1 (f : Nat → ProbeAttempt) (a : Nat) (last : Option Nat) :
    probeLoop f 1 a last =
      match f a with
      | .transportErr => (.network, a, [])
      | .response st hd =>
        if isProbeSuccess st then (.success hd, a, [])
        else
          ((probeLoop f 0 (a + 1) (some st)).1,
           (probeLoop f 0 (a + 1) (some st)).2.1,
           (if a < PROBE_MAX_RETRIES then [backoffSecs a] else [])
             ++ (probeLoop f 0 (a + 1) (some st)).2.2) := probeLoop_succ f 0 a last

/-- C6: the probe loop makes at most 3 attempts (and at least one); a
non-2xx/non-206 status is recorded as HttpError(status) and followed by a
sleep of 2^(attempt-1) seconds unless it was the last attempt; a transport
error returns immediately with no further attempt and no further sleep;
after 3 failing-status attempts the loop returns the last recorded
HttpError with sleeps [1, 2]; the DownloadFailed fallback (returned only
when no status error was recorded) is never reached, since every failing
attempt records its status and transport errors and successes return
immediately.  The attempt counter k, a prefix of failing-status attempts,
and the attempt k response are universally quantified. -/
theorem C6_probe_retry (f : Nat → ProbeAttempt) (k s : Nat) (hd : Headers)
    (hk1 : 1 ≤ k) (hk3 : k ≤ 3)
    (hfail : ∀ j, 1 ≤ j → j < k →
      ∃ s2 hd2, f j = .response s2 hd2 ∧ isProbeSuccess s2 = false) :
    (1 ≤ (dispatchProbe f).2.1 ∧ (dispatchProbe f).2.1 ≤ 3) ∧
    (dispatchProbe f).1 ≠ .downloadFailed ∧
    (f k = .transportErr →
      dispatchProbe f =
        (.network, k, (List.range (k - 1)).map (fun j => backoffSecs (j + 1)))) ∧
    (f k = .response s hd → isProbeSuccess s = true →
      dispatchProbe f =
        (.success hd, k, (List.range (k - 1)).map (fun j => backoffSecs (j + 1)))) ∧
    (k = 3 → f 3 = .response s hd → isProbeSuccess s = false →
      dispatchProbe f = (.httpError s, 3, [1, 2])) := by
  have hm1 : (List.range 1).map (fun j => backoffSecs (j + 1)) = [1] := by decide
  have hm2 : (List.range 2).map (fun j => backoffSecs (j + 1)) = [1, 2] := by decide
  have hb1 : backoffSecs 1 = 1 := by decide
  have hb2 : backoffSecs 2 = 2 := by decide
  have hlt1 : 1 < PROBE_MAX_RETRIES := by decide
  have hlt2 : 2 < PROBE_MAX_RETRIES := by decide
  have hgen : (1 ≤ (dispatchProbe f).2.1 ∧ (dispatchProbe f).2.1 ≤ 3) ∧
      (dispatchProbe f).1 ≠ .downloadFailed := by
    unfold dispatchProbe PROBE_MAX_RETRIES
    rw [probeLoop_step3 f 1 none]
    rcases hf1 : f 1 with _ | ⟨s1, hd1⟩
    · simp only []
      exact ⟨⟨by norm_num, by norm_num⟩, by simp⟩
    · simp only []
      by_cases hs1 : isProbeSuccess s1 = true
      · rw [if_pos hs1]
        exact ⟨⟨by norm_num, by norm_num⟩, by simp⟩
      · rw [if_neg hs1, probeLoop_step2 f 2 (some s1)]
        rcases hf2 : f 2 with _ | ⟨s2, hd2⟩
        · simp only []
          exact ⟨⟨by norm_num, by norm_num⟩, by simp⟩
        · simp only []
          by_cases hs2 : isProbeSuccess s2 = true
          · rw [if_pos hs2]
            exact ⟨⟨by norm_num, by norm_num⟩, by simp⟩
          · rw [if_neg hs2, probeLoop_step1 f 3 (some s2)]
            rcases hf3 : f 3 with _ | ⟨s3, hd3⟩
            · simp only []
              exact ⟨⟨by norm_num, by norm_num⟩, by simp⟩
            · simp only []
              by_cases hs3 : isProbeSuccess s3 = true
              · rw [if_pos hs3]
                exact ⟨⟨by norm_num, by norm_num⟩, by simp⟩
              · rw [if_neg hs3, probeLoop_zero f 4 (some s3)]
                exact ⟨⟨by norm_num, by norm_num⟩, by simp⟩
  refine ⟨hgen.1, hgen.2, ?_, ?_, ?_⟩
  · -- transport error at attempt k after a failing prefix
    intro hfk
    unfold dispatchProbe PROBE_MAX_RETRIES
    interval_cases k
    · rw [probeLoop_step3 f 1 none, hfk]
      rfl
    · obtain ⟨s1, hd1, hf1, hs1⟩ := hfail 1 (by norm_num) (by norm_num)
      rw [probeLoop_step3 f 1 none, hf1]
      simp only []
      rw [if_neg (by simp [hs1]), probeLoop_step2 f 2 (some s1), hfk]
      simp only []
      rw [hm1, if_pos hlt1, hb1]
      rfl
    · obtain ⟨s1, hd1, hf1, hs1⟩ := hfail 1 (by norm_num) (by norm_num)
      obtain ⟨s2, hd2, hf2, hs2⟩ := hfail 2 (by norm_num) (by norm_num)
      rw [probeLoop_step3 f 1 none, hf1]
      simp only []
      rw [if_neg (by simp [hs1]), probeLoop_step2 f 2 (some s1), hf2]
      simp only []
      rw [if_neg (by simp [hs2]), probeLoop_step1 f 3 (some s2), hfk]
      simp only []
      rw [hm2, if_pos hlt1, if_pos hlt2, hb1, hb2]
      rfl
  · -- success at attempt k after a failing prefix
    intro hfk hsk
    unfold dispatchProbe PROBE_MAX_RETRIES
    interval_cases k
    · rw [probeLoop_step3 f 1 none, hfk]
      simp only []
      rw [if_pos hsk]
      rfl
    · obtain ⟨s1, hd1, hf1, hs1⟩ := hfail 1 (by norm_num) (by norm_num)
      rw [probeLoop_step3 f 1 none, hf1]
      simp only []
      rw [if_neg (by simp [hs1]), probeLoop_step2 f 2 (some s1), hfk]
      simp only []
      rw [if_pos hsk, hm1, if_pos hlt1, hb1]
      rfl
    · obtain ⟨s1, hd1, hf1, hs1⟩ := hfail 1 (by norm_num) (by norm_num)
      obtain ⟨s2, hd2, hf2, hs2⟩ := hfail 2 (by norm_num) (by norm_num)
      rw [probeLoop_step3 f 1 none, hf1]
      simp only []
      rw [if_neg (by simp [hs1]), probeLoop_step2 f 2 (some s1), hf2]
      simp only []
      rw [if_neg (by simp [hs2]), probeLoop_step1 f 3 (some s2), hfk]
      simp only []
      rw [if_pos hsk, hm2, if_pos hlt1, if_pos hlt2, hb1, hb2]
      rfl
  · -- three failing-status attempts: the last recorded HttpError is returned
    intro hk hf3r hs3
    subst hk
    obtain ⟨s1, hd1, hf1, hs1⟩ := hfail 1 (by norm_num) (by norm_num)
    obtain ⟨s2, hd2, hf2, hs2⟩ := hfail 2 (by norm_num) (by norm_num)
    unfold dispatchProbe PROBE_MAX_RETRIES
    rw [probeLoop_step3 f 1 none, hf1]
    simp only []
    rw [if_neg (by simp [hs1]), probeLoop_step2 f 2 (some s1), hf2]
    simp only []
    rw [if_neg (by simp [hs2]), probeLoop_step1 f 3 (some s2), hf3r]
    simp only []
    rw [if_neg (by simp [hs3]), probeLoop_zero f 4 (some s)]
    rw [if_pos hlt1, if_pos hlt2, hb1, hb2]
    rfl

theorem C6_probe_retry_witness :
    dispatchProbe (fun _ => ProbeAttempt.response 500 ⟨none, none, none, none, none⟩)
      = (.httpError 500, 3, [1, 2]) := by
  have h := C6_probe_retry
    (fun _ => ProbeAttempt.response 500 ⟨none, none, none, none, none⟩)
    3 500 ⟨none, none, none, none, none⟩ (by norm_num) (by norm_num)
    (fun j _ _ => ⟨500, ⟨none, none, none, none, none⟩, rfl, by decide⟩)
  exact h.2.2.2.2 rfl rfl (by decide)

/-- C2, counterexample.  On a fresh start (no sidecar on disk) the end of
resume reconciliation leaves no sidecar on disk: the source builds the
plan only in memory and creates and pre-allocates the output file; the
first sidecar write only happens inside a chunk task.  The claim asserts
the sidecar exists on disk from the end of reconciliation on. -/
theorem C2_counterexample :
    (reconcile ⟨none, none⟩ ("http://u") 100 none true).1.sidecar = none := rfl

/-- C2 (amended): when run starts with no sidecar on disk, reconciliation
builds the fresh plan in memory and creates the output file pre-allocated
to total_size, but persists no sidecar; the sidecar is first written to
disk when a chunk task completes successfully (the filesystem a
successful task leaves behind carries the updated record as its
sidecar). -/
theorem C2_amended_sidecar (fs0 : Fs) (net : Nat → ChunkNet) (url : String)
    (ts : Nat) (etag ect : Option String) (mp : Bool) (i : Nat)
    (c : ChunkState) (mem m2 : DownloadState) (fs f2 : Fs)
    (hfresh : fs0.sidecar = none)
    (hstep : taskStep net ect i c mem fs = .ok (m2, f2)) :
    reconcile fs0 url ts etag mp =
      (⟨none, some ts⟩, ⟨url, ts, etag, create_chunks ts mp⟩, 0) ∧
    f2.sidecar = some m2 := by
  constructor
  · unfold reconcile
    rw [hfresh]
  · exact (taskStep_ok_shape hstep).1

theorem C2_amended_sidecar_witness :
    reconcile ⟨none, some 7⟩ ("http://u") 100 none false =
      (⟨none, some 100⟩, ⟨("http://u"), 100, none, create_chunks 100 false⟩, 0) ∧
    (Fs.mk (some ⟨("u"), 100, none, [⟨0, 99, true⟩]⟩) (some 100)).sidecar =
      some ⟨("u"), 100, none, [⟨0, 99, true⟩]⟩ :=
  C2_amended_sidecar ⟨none, some 7⟩ (fun _ => ChunkNet.response 200 none 4)
    ("http://u") 100 none none false 0 ⟨0, 99, false⟩
    ⟨("u"), 100, none, [⟨0, 99, false⟩]⟩
    ⟨("u"), 100, none, [⟨0, 99, true⟩]⟩
    ⟨none, some 100⟩
    ⟨some ⟨("u"), 100, none, [⟨0, 99, true⟩]⟩, some 100⟩
    rfl rfl

/-- C3, counterexample.  A fresh run (no sidecar) whose single chunk task
fails with a 500 status: run returns ChunkDownloadFailed, yet no sidecar
exists on disk after the non-success return, because none was ever
written.  The claim asserts the sidecar exists immediately after any
non-success return. -/
theorem C3_counterexample :
    run_download ⟨none, none⟩ (fun _ => ChunkNet.response 500 none 0)
        ("http://u") 100 none none false
      = (⟨none, some 100⟩, .failure .chunkDownloadFailed) := rfl

/-- C3 (amended): run attempts sidecar removal only on the all-success
path.  If any scheduled task fails, run returns ChunkDownloadFailed and
performs no removal, leaving the files exactly as the tasks left them; the
sidecar then exists on disk if some task succeeded during the run (its
completion wrote it), and on an all-failure run the sidecar is exactly
what reconciliation left (none on a fresh start).  When every scheduled
task succeeds and at least one chunk was pending, run removes the sidecar
and returns success. -/
theorem C3_amended_removal (fs0 : Fs) (net : Nat → ChunkNet) (url : String)
    (ts : Nat) (etag ect : Option String) (mp : Bool) (len : Nat)
    (hout : (reconcile fs0 url ts etag mp).1.output = some len) :
    ((∃ p ∈ pendingOf (reconcile fs0 url ts etag mp).2.1,
        taskOkB net ect p.1 = false) →
      run_download fs0 net url ts etag ect mp =
        ((runTasks net ect (pendingOf (reconcile fs0 url ts etag mp).2.1)
            (reconcile fs0 url ts etag mp).2.1
            (reconcile fs0 url ts etag mp).1 false).2.1,
         .failure .chunkDownloadFailed)) ∧
    ((∀ p ∈ pendingOf (reconcile fs0 url ts etag mp).2.1,
        taskOkB net ect p.1 = true) →
      pendingOf (reconcile fs0 url ts etag mp).2.1 ≠ [] →
      (run_download fs0 net url ts etag ect mp).2 = .success ∧
      (run_download fs0 net url ts etag ect mp).1.sidecar = none) ∧
    ((∃ p ∈ pendingOf (reconcile fs0 url ts etag mp).2.1,
        taskOkB net ect p.1 = false) →
      (∃ p ∈ pendingOf (reconcile fs0 url ts etag mp).2.1,
        taskOkB net ect p.1 = true) →
      (run_download fs0 net url ts etag ect mp).1.sidecar.isSome = true) ∧
    ((∀ p ∈ pendingOf (reconcile fs0 url ts etag mp).2.1,
        taskOkB net ect p.1 = false) →
      pendingOf (reconcile fs0 url ts etag mp).2.1 ≠ [] →
      (run_download fs0 net url ts etag ect mp).1.sidecar =
        (reconcile fs0 url ts etag mp).1.sidecar) := by
  refine ⟨?_, ?_, ?_, ?_⟩
  · intro hex
    have hflag := runTasks_any_fail net ect
      (pendingOf (reconcile fs0 url ts etag mp).2.1)
      (reconcile fs0 url ts etag mp).2.1 (reconcile fs0 url ts etag mp).1
      false hex
    unfold run_download
    dsimp only
    rw [if_pos hflag]
  · intro hall hne
    have hflag := runTasks_all_ok net ect
      (pendingOf (reconcile fs0 url ts etag mp).2.1)
      (reconcile fs0 url ts etag mp).2.1 (reconcile fs0 url ts etag mp).1
      false len hout hall
    obtain ⟨p, hp⟩ := List.exists_mem_of_ne_nil _ hne
    have hsome := runTasks_some_ok net ect
      (pendingOf (reconcile fs0 url ts etag mp).2.1)
      (reconcile fs0 url ts etag mp).2.1 (reconcile fs0 url ts etag mp).1
      false len hout ⟨p, hp, hall p hp⟩
    obtain ⟨st, hst⟩ := Option.isSome_iff_exists.mp hsome
    unfold run_download
    dsimp only
    rw [if_neg (by simp [hflag]), hst]
    exact ⟨rfl, rfl⟩
  · intro hexf hexo
    have hflag := runTasks_any_fail net ect
      (pendingOf (reconcile fs0 url ts etag mp).2.1)
      (reconcile fs0 url ts etag mp).2.1 (reconcile fs0 url ts etag mp).1
      false hexf
    have hsome := runTasks_some_ok net ect
      (pendingOf (reconcile fs0 url ts etag mp).2.1)
      (reconcile fs0 url ts etag mp).2.1 (reconcile fs0 url ts etag mp).1
      false len hout hexo
    unfold run_download
    dsimp only
    rw [if_pos hflag]
    exact hsome
  · intro hall hne
    have heq := runTasks_all_fail net ect
      (pendingOf (reconcile fs0 url ts etag mp).2.1)
      (reconcile fs0 url ts etag mp).2.1 (reconcile fs0 url ts etag mp).1
      false hall
    have hemp : (pendingOf (reconcile fs0 url ts etag mp).2.1).isEmpty = false := by
      cases hp : pendingOf (reconcile fs0 url ts etag mp).2.1 with
      | nil => exact absurd hp hne
      | cons a l => rfl
    unfold run_download
    dsimp only
    rw [heq]
    dsimp only
    rw [hemp]
    rfl

theorem C3_amended_removal_witness :
    run_download ⟨none, none⟩ (fun _ => ChunkNet.response 404 none 0)
        ("http://u") 50 none none false
      = ((runTasks (fun _ => ChunkNet.response 404 none 0) none
            (pendingOf (reconcile ⟨none, none⟩ ("http://u") 50 none false).2.1)
            (reconcile ⟨none, none⟩ ("http://u") 50 none false).2.1
            (reconcile ⟨none, none⟩ ("http://u") 50 none false).1 false).2.1,
         .failure .chunkDownloadFailed) ∧
    (run_download ⟨none, none⟩ (fun _ => ChunkNet.response 404 none 0)
        ("http://u") 50 none none false).1.sidecar =
      (reconcile ⟨none, none⟩ ("http://u") 50 none false).1.sidecar := by
  have h := C3_amended_removal ⟨none, none⟩ (fun _ => ChunkNet.response 404 none 0)
    ("http://u") 50 none none false 50 rfl
  exact ⟨h.1 ⟨(0, ⟨0, 49, false⟩), by decide, by decide⟩,
    h.2.2.2 (by decide) (by decide)⟩

/-- C4: when a sidecar exists at run start, any mismatch of total_size,
url or identity tag (optional strings, exact equality: none = none
matches, none vs some mismatches) triggers a cold restart — sidecar and
partial output deleted, a fresh plan built, the output re-created and
pre-allocated to total_size; when all three match, the record is kept
(with its completed byte count) and a fetch task is scheduled exactly for
each index whose chunk has completed = false. -/
theorem C4_resume_reconciliation (fs0 : Fs) (url : String) (ts : Nat)
    (etag : Option String) (mp : Bool) (rec : DownloadState)
    (i : Nat) (c : ChunkState)
    (hside : fs0.sidecar = some rec) :
    ((rec.total_size ≠ ts ∨ rec.url ≠ url ∨ rec.etag ≠ etag) →
      reconcile fs0 url ts etag mp =
        (⟨none, some ts⟩, ⟨url, ts, etag, create_chunks ts mp⟩, 0)) ∧
    ((rec.total_size = ts ∧ rec.url = url ∧ rec.etag = etag) →
      reconcile fs0 url ts etag mp = (fs0, rec, completedBytes rec.chunks)) ∧
    ((i, c) ∈ pendingOf rec ↔ rec.chunks[i]? = some c ∧ c.completed = false) := by
  refine ⟨?_, ?_, ?_⟩
  · intro hmis
    unfold reconcile
    rw [hside]
    dsimp only
    rw [if_pos hmis]
  · intro hmatch
    unfold reconcile
    rw [hside]
    dsimp only
    rw [if_neg (by push_neg; exact ⟨hmatch.1, hmatch.2.1, hmatch.2.2⟩)]
  · unfold pendingOf
    rw [List.mem_filter]
    constructor
    · rintro ⟨hmem, hc⟩
      refine ⟨List.mk_mem_enum_iff_getElem?.mp hmem, ?_⟩
      simpa using hc
    · rintro ⟨hget, hc⟩
      refine ⟨List.mk_mem_enum_iff_getElem?.mpr hget, ?_⟩
      simpa using hc

theorem C4_resume_reconciliation_witness :
    reconcile ⟨some ⟨("u"), 100, none, [⟨0, 49, true⟩, ⟨50, 99, false⟩]⟩, some 100⟩
        ("u") 100 none true
      = (⟨some ⟨("u"), 100, none, [⟨0, 49, true⟩, ⟨50, 99, false⟩]⟩, some 100⟩,
         ⟨("u"), 100, none, [⟨0, 49, true⟩, ⟨50, 99, false⟩]⟩,
         completedBytes [⟨0, 49, true⟩, ⟨50, 99, false⟩]) ∧
    ((1, (⟨50, 99, false⟩ : ChunkState)) ∈
        pendingOf ⟨("u"), 100, none, [⟨0, 49, true⟩, ⟨50, 99, false⟩]⟩ ↔
      (DownloadState.chunks ⟨("u"), 100, none,
        [⟨0, 49, true⟩, ⟨50, 99, false⟩]⟩)[1]? = some ⟨50, 99, false⟩ ∧
      (⟨50, 99, false⟩ : ChunkState).completed = false) := by
  have h := C4_resume_reconciliation
    ⟨some ⟨("u"), 100, none, [⟨0, 49, true⟩, ⟨50, 99, false⟩]⟩, some 100⟩
    ("u") 100 none true ⟨("u"), 100, none, [⟨0, 49, true⟩, ⟨50, 99, false⟩]⟩
    1 ⟨50, 99, false⟩ rfl
  exact ⟨h.2.1 ⟨rfl, rfl, rfl⟩, h.2.2⟩

/-- C7: a chunk task whose response has a valid status (206 or 200)
compares the response Content-Type with the probe's expected one as
optional strings under exact equality, and fails with ContentTypeMismatch
exactly when they differ — including one side absent and the other
present; when both agree (also when both are absent) the task proceeds and
succeeds. -/
theorem C7_content_type_guard (net : Nat → ChunkNet) (ect : Option String)
    (i : Nat) (c : ChunkState) (mem : DownloadState) (fs : Fs) (len : Nat)
    (status : Nat) (ct : Option String) (bl : Nat)
    (hnet : net i = .response status ct bl)
    (hst : status = 206 ∨ status = 200)
    (hout : fs.output = some len) :
    (taskStep net ect i c mem fs = .error .contentTypeMismatch ↔ ct ≠ ect) ∧
    (ct = ect →
      taskStep net ect i c mem fs =
        .ok ({ mem with chunks := setCompleted mem.chunks i },
             { sidecar := some { mem with chunks := setCompleted mem.chunks i },
               output := some (max len (c.start + bl)) })) := by
  unfold taskStep
  rw [hnet]
  dsimp only
  rw [if_neg (by omega)]
  constructor
  · constructor
    · intro h
      by_cases hct : ct = ect
      · rw [if_neg (by simp [hct]), hout] at h
        simp at h
      · exact hct
    · intro hct
      rw [if_pos hct]
  · intro hct
    rw [if_neg (by simp [hct]), hout]

theorem C7_content_type_guard_witness :
    taskStep (fun _ => ChunkNet.response 206 (some ("text/html")) 3) none 0
        ⟨0, 9, false⟩ ⟨("u"), 10, none, [⟨0, 9, false⟩]⟩ ⟨none, some 10⟩
      = .error .contentTypeMismatch := by
  have h := C7_content_type_guard
    (fun _ => ChunkNet.response 206 (some ("text/html")) 3)
    none 0 ⟨0, 9, false⟩ ⟨("u"), 10, none, [⟨0, 9, false⟩]⟩ ⟨none, some 10⟩ 10
    206 (some ("text/html")) 3 rfl (Or.inl rfl) rfl
  exact h.1.mpr (by simp)

end RDownloader
